import Mathlib

/-!
Verification of the `native_rust` statistics module of PyFunc
(`src/pyfunc/native_rust/src/lib.rs`).

The module exposes two pure functions over a vector of `f64`:

* `median(data: Vec<f64>) -> PyResult<f64>` — errors on an empty input,
  sorts an owned copy with `sort_by(|a, b| a.partial_cmp(b).unwrap())`
  (which panics as soon as the comparator sees a NaN), and returns the
  middle element (odd length) or the mean of the two middle elements
  (even length).
* `stdev(data: Vec<f64>) -> PyResult<f64>` — errors on fewer than two
  data points, computes the two-pass population variance
  `sum((mean - x)^2) / n` and returns its square root.

Shallow embedding conventions:

* An `f64` is modelled by the type `F`: a NaN, one of the two infinities,
  or an exact finite value carried as a rational number.  Finite
  arithmetic is exact (no rounding and no overflow are modelled, and the
  distinction between +0.0 and -0.0 is collapsed to the single rational
  zero); the special values follow the IEEE-754 rules implemented by
  Rust's `f64` operators.
* `f64::sqrt` is modelled by `sqrtF`: NaN for negative (and NaN)
  arguments, `+inf` for `+inf`, and an exact rational square root for
  nonnegative finite arguments that are perfect squares (the only inputs
  whose square roots any statement below evaluates); for other finite
  arguments the model returns the floor-style rational approximation
  where real `f64` code would return a correctly rounded float.
* A Rust panic (the `unwrap()` of a failed `partial_cmp`) is the
  `Outcome.abort` result; a `PyResult` error is `Outcome.err` carrying
  the message string of the raised `ValueError` (the source distinguishes
  its two failure kinds — the spec's `EmptyInput` and `InsufficientData` —
  only by these messages, both being `ValueError`s at the boundary).
-/

namespace PyFunc

/-- Model of a Rust `f64`: NaN, the two infinities, or an exact finite
value represented by a rational number. -/
inductive F where
  | nan : F
  | ninf : F
  | fin (q : ℚ) : F
  | pinf : F
deriving DecidableEq, Repr

/-- IEEE-754 addition on the model (`+` on `f64`): NaN is absorbing,
opposite infinities give NaN, an infinity absorbs finite values, and
finite addition is exact. -/
def addF : F → F → F
  | F.nan, _ => F.nan
  | _, F.nan => F.nan
  | F.pinf, F.ninf => F.nan
  | F.ninf, F.pinf => F.nan
  | F.pinf, _ => F.pinf
  | _, F.pinf => F.pinf
  | F.ninf, _ => F.ninf
  | _, F.ninf => F.ninf
  | F.fin a, F.fin b => F.fin (a + b)

/-- IEEE-754 subtraction on the model (`-` on `f64`). -/
def subF : F → F → F
  | F.nan, _ => F.nan
  | _, F.nan => F.nan
  | F.pinf, F.pinf => F.nan
  | F.ninf, F.ninf => F.nan
  | F.pinf, _ => F.pinf
  | _, F.pinf => F.ninf
  | F.ninf, _ => F.ninf
  | _, F.ninf => F.pinf
  | F.fin a, F.fin b => F.fin (a - b)

/-- IEEE-754 multiplication on the model (`*` on `f64`): an infinity
times zero is NaN, otherwise infinities multiply by sign. -/
def mulF : F → F → F
  | F.nan, _ => F.nan
  | _, F.nan => F.nan
  | F.pinf, F.pinf => F.pinf
  | F.pinf, F.ninf => F.ninf
  | F.ninf, F.pinf => F.ninf
  | F.ninf, F.ninf => F.pinf
  | F.pinf, F.fin b => if b = 0 then F.nan else if 0 < b then F.pinf else F.ninf
  | F.fin a, F.pinf => if a = 0 then F.nan else if 0 < a then F.pinf else F.ninf
  | F.ninf, F.fin b => if b = 0 then F.nan else if 0 < b then F.ninf else F.pinf
  | F.fin a, F.ninf => if a = 0 then F.nan else if 0 < a then F.ninf else F.pinf
  | F.fin a, F.fin b => F.fin (a * b)

/-- IEEE-754 division on the model (`/` on `f64`): `inf/inf` and `0/0`
are NaN, a finite value over an infinity collapses to zero (the signed
zero of real `f64` is not distinguished), a nonzero finite value over
zero is a signed infinity, and finite division is exact. -/
def divF : F → F → F
  | F.nan, _ => F.nan
  | _, F.nan => F.nan
  | F.pinf, F.pinf => F.nan
  | F.pinf, F.ninf => F.nan
  | F.ninf, F.pinf => F.nan
  | F.ninf, F.ninf => F.nan
  | F.pinf, F.fin b => if 0 ≤ b then F.pinf else F.ninf
  | F.ninf, F.fin b => if 0 ≤ b then F.ninf else F.pinf
  | F.fin _, F.pinf => F.fin 0
  | F.fin _, F.ninf => F.fin 0
  | F.fin a, F.fin b =>
    if b = 0 then (if a = 0 then F.nan else if 0 < a then F.pinf else F.ninf)
    else F.fin (a / b)

/-- Downward search for the largest `j ≤ k` with `j * j ≤ n` (0 when
none exists), written by structural recursion so that concrete
instances evaluate by rewriting. -/
def natSqrtAux (n : ℕ) : ℕ → ℕ
  | 0 => 0
  | k + 1 => if (k + 1) * (k + 1) ≤ n then k + 1 else natSqrtAux n k

/-- Exact square root on naturals: the largest `k` with `k * k ≤ n`. -/
def natSqrt (n : ℕ) : ℕ := natSqrtAux n n

/-- Square root of a nonnegative rational, exact on perfect squares
(numerator and denominator of the reduced fraction both squares). -/
def ratSqrt (q : ℚ) : ℚ := (natSqrt q.num.toNat : ℚ) / (natSqrt q.den : ℚ)

/-- Model of `f64::sqrt`: NaN for NaN and negative arguments (including
`-inf`), `+inf` for `+inf`, and `ratSqrt` for nonnegative finite
arguments (exact on perfect squares, see the file comment). -/
def sqrtF : F → F
  | F.nan => F.nan
  | F.ninf => F.nan
  | F.pinf => F.pinf
  | F.fin q => if q < 0 then F.nan else F.fin (ratSqrt q)

/-- The total order in which the source's comparator ranks the values it
can compare: `-inf` below all finite values below `+inf`, finite values
by their rational order.  NaN — on which the real comparator panics
instead of answering — is placed above everything so that the relation
is total and antisymmetric on all of `F`; no statement below ever ranks
a NaN except to observe that a result fails an interval bound, which
agrees with IEEE comparisons (a NaN is `≤` nothing). -/
def leF : F → F → Bool
  | _, F.nan => true
  | F.nan, _ => false
  | F.ninf, _ => true
  | _, F.ninf => false
  | F.fin a, F.fin b => decide (a ≤ b)
  | F.fin _, F.pinf => true
  | F.pinf, F.fin _ => false
  | F.pinf, F.pinf => true

/-- Propositional form of `leF`, used as the sorting relation. -/
def fle (a b : F) : Prop := leF a b = true

instance : DecidableRel fle := fun a b => inferInstanceAs (Decidable (leF a b = true))

instance : IsTotal F fle := by
  constructor
  intro a b
  cases a <;> cases b <;> simp [fle, leF] <;> exact le_total _ _

instance : IsTrans F fle := by
  constructor
  intro a b c hab hbc
  cases a <;> cases b <;> cases c <;> simp_all [fle, leF] <;> exact le_trans hab hbc

instance : IsAntisymm F fle := by
  constructor
  intro a b hab hba
  cases a <;> cases b <;> simp_all [fle, leF] <;> exact le_antisymm hab hba

instance : IsRefl F fle := by
  constructor
  intro a
  cases a <;> simp [fle, leF]

/-- One step of the sort of `median`: insert `x` into the already sorted
list, calling the source's comparator `|a, b| a.partial_cmp(b).unwrap()`
on `x` and each scanned element.  `partial_cmp` returns `None` — and the
`unwrap()` panics, modelled by `none` — exactly when either compared
value is NaN; on non-NaN values it answers according to `fle`. -/
def insertF (x : F) : List F → Option (List F)
  | [] => some [x]
  | y :: l =>
    if x = F.nan ∨ y = F.nan then none
    else if fle x y then some (x :: y :: l)
    else
      match insertF x l with
      | none => none
      | some t => some (y :: t)

/-- Model of `data.sort_by(|a, b| a.partial_cmp(b).unwrap())`: a stable
insertion sort returning `none` when the comparator panics on a NaN.
The values of a Rust `f64` slice sorted ascending by this comparator
are exactly the insertion-sorted values (sortedness under a total order
determines the value sequence of any correct sort), and Rust's sort
compares every element of a slice of length at least two, so a NaN
present in such a slice reaches the comparator and panics. -/
def sortF : List F → Option (List F)
  | [] => some []
  | x :: xs =>
    match sortF xs with
    | none => none
    | some t => insertF x t

/-- Message of the `ValueError` raised by `median` on an empty input —
the spec's `EmptyInput` error kind. -/
def emptyInputMsg : String := "median() arg is an empty sequence"

/-- Message of the `ValueError` raised by `stdev` on fewer than two data
points — the spec's `InsufficientData` error kind. -/
def insufficientDataMsg : String := "stdev() requires at least two data points"

/-- Observable outcome of one call at the function boundary: a returned
value (`Ok`), a raised `ValueError` with its message (`Err`), or a Rust
panic that produces neither. -/
inductive Outcome where
  | ok (v : F) : Outcome
  | err (msg : String) : Outcome
  | abort : Outcome
deriving DecidableEq, Repr

/-- Translation of `median` from `src/pyfunc/native_rust/src/lib.rs`:
reject the empty input, sort the owned data with the panicking
comparator, then take `data[mid]` for odd length or
`(data[mid - 1] + data[mid]) / 2.0` for even length, `mid = len / 2`.
Indexing is rendered with `getD` (default value NaN); both indices are
in bounds whenever that branch runs, so the default is never produced. -/
def median (data : List F) : Outcome :=
  if data.isEmpty then Outcome.err emptyInputMsg
  else
    match sortF data with
    | none => Outcome.abort
    | some s =>
      let mid := s.length / 2
      if s.length % 2 = 0 then
        Outcome.ok (divF (addF (s.getD (mid - 1) F.nan) (s.getD mid F.nan)) (F.fin 2))
      else Outcome.ok (s.getD mid F.nan)

/-- Model of `data.iter().sum::<f64>()`: a left fold of `+` from `0.0`. -/
def sumF (l : List F) : F := l.foldl addF (F.fin 0)

/-- The two-pass variance computed inside `stdev`:
`mean = sum / n` and `variance = sum((mean - x)^2) / n`, with `n` the
length of the data cast to `f64`. -/
def varianceOf (data : List F) : F :=
  let n : ℚ := data.length
  let mean := divF (sumF data) (F.fin n)
  divF (sumF (data.map (fun v => mulF (subF mean v) (subF mean v)))) (F.fin n)

/-- The final step of `stdev` on the computed variance: the source
returns `variance.sqrt()` directly, with no adjustment of the argument. -/
def stdevFinish (variance : F) : F := sqrtF variance

/-- Translation of `stdev` from `src/pyfunc/native_rust/src/lib.rs`:
reject fewer than two data points, then return the square root of the
two-pass population variance. -/
def stdev (data : List F) : Outcome :=
  if data.length < 2 then Outcome.err insufficientDataMsg
  else Outcome.ok (stdevFinish (varianceOf data))

/-- Spec-side twin of the sort inside `median` (from the spec's words:
"produce a sorted ascending copy of the input"): Mathlib's insertion
sort of the data under the comparator order, with no possibility of a
panic. -/
def sortedAsc (data : List F) : List F := List.insertionSort fle data

/-- Spec-side twin of `median` (from the spec's words: "if N is odd, the
element at index ⌊N/2⌋ (0-based) of the sorted sequence. If N is even,
the arithmetic mean of the elements at indices N/2 − 1 and N/2"), with
the mean taken by the model's `f64` arithmetic. -/
def medianSpec (data : List F) : F :=
  let s := sortedAsc data
  let mid := s.length / 2
  if s.length % 2 = 0 then
    divF (addF (s.getD (mid - 1) F.nan) (s.getD mid F.nan)) (F.fin 2)
  else s.getD mid F.nan

/-- Spec-side twin of the variance of `stdev` over exact rationals (from
the spec's words: "mean = (sum of all elements) / N" and "variance =
(sum over each element of (mean − element)²) / N"). -/
def popVarianceSpec (qs : List ℚ) : ℚ :=
  (qs.map (fun q => ((qs.sum / (qs.length : ℚ)) - q) ^ 2)).sum / (qs.length : ℚ)

/-- On NaN-free data the panicking insertion step agrees with Mathlib's
`orderedInsert` under the comparator order. -/
theorem insertF_eq_orderedInsert (x : F) (l : List F) (hx : x ≠ F.nan) (hl : F.nan ∉ l) :
    insertF x l = some (List.orderedInsert fle x l) := by
  induction l with
  | nil => rfl
  | cons y t ih =>
    have hy : y ≠ F.nan := fun h => hl (h ▸ List.mem_cons_self y t)
    have ht : F.nan ∉ t := fun h => hl (List.mem_cons_of_mem y h)
    rw [insertF, if_neg (by simp [hx, hy])]
    by_cases h : fle x y
    · rw [if_pos h, List.orderedInsert, if_pos h]
    · rw [if_neg h, List.orderedInsert, if_neg h, ih ht]

/-- On NaN-free data the source's sort succeeds and returns Mathlib's
insertion sort of the data under the comparator order. -/
theorem sortF_eq_insertionSort (l : List F) (hl : F.nan ∉ l) :
    sortF l = some (List.insertionSort fle l) := by
  induction l with
  | nil => rfl
  | cons x t ih =>
    have hx : x ≠ F.nan := fun h => hl (h ▸ List.mem_cons_self x t)
    have ht : F.nan ∉ t := fun h => hl (List.mem_cons_of_mem x h)
    have hts : F.nan ∉ List.insertionSort fle t :=
      fun h => ht ((List.mem_insertionSort fle).1 h)
    rw [sortF, ih ht, List.insertionSort]
    exact insertF_eq_orderedInsert x _ hx hts

/-- Core refinement: on a non-empty NaN-free input, `median` returns the
spec-side value. -/
theorem median_eq_medianSpec (data : List F) (hne : data ≠ []) (hnn : F.nan ∉ data) :
    median data = Outcome.ok (medianSpec data) := by
  have h0 : data.isEmpty = false := by
    cases data with
    | nil => exact absurd rfl hne
    | cons x xs => rfl
  rw [median, h0, sortF_eq_insertionSort data hnn]
  simp [medianSpec, sortedAsc, apply_ite Outcome.ok]

/-- The sorted copy is a permutation of the input. -/
theorem sortedAsc_perm (data : List F) : (sortedAsc data).Perm data :=
  List.perm_insertionSort fle data

/-- The sorted copy is sorted under the comparator order. -/
theorem sortedAsc_sorted (data : List F) : List.Sorted fle (sortedAsc data) :=
  List.sorted_insertionSort fle data

/-- The sorted copy depends only on the input multiset. -/
theorem sortedAsc_perm_congr (data data' : List F) (hp : data.Perm data') :
    sortedAsc data = sortedAsc data' :=
  List.eq_of_perm_of_sorted
    ((sortedAsc_perm data).trans (hp.trans (sortedAsc_perm data').symm))
    (sortedAsc_sorted data) (sortedAsc_sorted data')

/-- Left-folding the model addition over finite values is exact rational
summation. -/
theorem foldl_addF_fin (qs : List ℚ) (a : ℚ) :
    List.foldl addF (F.fin a) (qs.map F.fin) = F.fin (a + qs.sum) := by
  induction qs generalizing a with
  | nil => simp
  | cons q t ih => simp [addF, ih, add_assoc]

/-- The iterator sum of finite values is the exact rational sum. -/
theorem sumF_map_fin (qs : List ℚ) : sumF (qs.map F.fin) = F.fin qs.sum := by
  simp [sumF, foldl_addF_fin]

/-- On finite data the two-pass variance inside `stdev` is exactly the
spec-side population variance. -/
theorem varianceOf_map_fin (qs : List ℚ) (h0 : qs ≠ []) :
    varianceOf (qs.map F.fin) = F.fin (popVarianceSpec qs) := by
  have hn : ((qs.length : ℚ)) ≠ 0 := by
    simpa using List.length_pos.2 h0 |>.ne'
  have hmean : divF (sumF (qs.map F.fin)) (F.fin (qs.length : ℚ))
      = F.fin (qs.sum / (qs.length : ℚ)) := by
    rw [sumF_map_fin]
    simp [divF, hn]
  simp only [varianceOf, List.length_map, hmean]
  have hmap : (qs.map F.fin).map
        (fun v => mulF (subF (F.fin (qs.sum / (qs.length : ℚ))) v)
          (subF (F.fin (qs.sum / (qs.length : ℚ))) v))
      = (qs.map (fun q => ((qs.sum / (qs.length : ℚ)) - q) ^ 2)).map F.fin := by
    simp only [List.map_map]
    refine List.map_congr_left fun q _ => ?_
    simp [Function.comp, subF, mulF, pow_two]
  rw [hmap, sumF_map_fin]
  simp [divF, hn, popVarianceSpec]

/-- Evaluation of `stdev` on a list of at least two finite values. -/
theorem stdev_map_fin (qs : List ℚ) (h2 : 2 ≤ qs.length) :
    stdev (qs.map F.fin) = Outcome.ok (sqrtF (F.fin (popVarianceSpec qs))) := by
  rw [stdev]
  rw [if_neg (by simp; omega)]
  rw [stdevFinish, varianceOf_map_fin qs (by intro h; subst h; simp at h2)]

/-- A value that is not a negative finite number — the only arguments
the square-root step of `stdev` can ever receive. -/
def NotNegFin (x : F) : Prop := ∀ q : ℚ, x = F.fin q → 0 ≤ q

/-- Model addition preserves `NotNegFin`. -/
theorem notNegFin_addF (a b : F) (ha : NotNegFin a) (hb : NotNegFin b) :
    NotNegFin (addF a b) := by
  intro q hq
  cases a <;> cases b <;> simp [addF] at hq
  subst hq
  exact add_nonneg (ha _ rfl) (hb _ rfl)

/-- The square of any value is not a negative finite number. -/
theorem notNegFin_mulF_self (a : F) : NotNegFin (mulF a a) := by
  intro q hq
  cases a <;> simp [mulF] at hq
  subst hq
  exact mul_self_nonneg _

/-- The iterator sum of values that are not negative finite numbers is
not a negative finite number. -/
theorem notNegFin_sumF (l : List F) (h : ∀ x ∈ l, NotNegFin x) : NotNegFin (sumF l) := by
  have aux : ∀ (t : List F) (acc : F), NotNegFin acc →
      (∀ x ∈ t, NotNegFin x) → NotNegFin (t.foldl addF acc) := by
    intro t
    induction t with
    | nil => intro acc hacc _; simpa using hacc
    | cons y ys ih =>
      intro acc hacc ht
      rw [List.foldl_cons]
      exact ih _ (notNegFin_addF acc y hacc (ht y (List.mem_cons_self y ys)))
        (fun x hx => ht x (List.mem_cons_of_mem y hx))
  exact aux l (F.fin 0) (fun q hq => by simp at hq; simp [← hq]) h

/-- Division by a (cast) natural count preserves `NotNegFin`. -/
theorem notNegFin_divF_nat (x : F) (n : ℕ) (hx : NotNegFin x) :
    NotNegFin (divF x (F.fin (n : ℚ))) := by
  intro q hq
  cases x with
  | nan => simp [divF] at hq
  | ninf => simp [divF, Nat.cast_nonneg] at hq
  | pinf => simp [divF, Nat.cast_nonneg] at hq
  | fin a =>
    by_cases hn : ((n : ℚ)) = 0
    · rw [divF] at hq
      by_cases ha : a = 0
      · simp [hn, ha] at hq
      · by_cases h : 0 < a
        · simp [hn, ha, h] at hq
        · simp [hn, ha, h] at hq
    · simp [divF, hn] at hq
      subst hq
      exact div_nonneg (hx a rfl) (Nat.cast_nonneg n)

/-- The variance computed inside `stdev` is never a negative finite
value, whatever the input elements are. -/
theorem varianceOf_notNegFin (data : List F) : NotNegFin (varianceOf data) := by
  rw [varianceOf]
  refine notNegFin_divF_nat _ data.length (notNegFin_sumF _ ?_)
  intro x hx
  obtain ⟨v, _, rfl⟩ := List.mem_map.1 hx
  exact notNegFin_mulF_self _

/-- The even-length middle step of `median`: the IEEE mean of two
comparable non-NaN values that are not the pair `(-inf, +inf)` lies
between them. -/
theorem div2_bounds (a b : F) (ha : a ≠ F.nan) (hb : b ≠ F.nan) (hab : fle a b)
    (hnp : ¬(a = F.ninf ∧ b = F.pinf)) :
    fle a (divF (addF a b) (F.fin 2)) ∧ fle (divF (addF a b) (F.fin 2)) b := by
  cases a with
  | nan => exact absurd rfl ha
  | ninf =>
    cases b with
    | nan => exact absurd rfl hb
    | pinf => exact absurd ⟨rfl, rfl⟩ hnp
    | ninf => constructor <;> norm_num [addF, divF, fle, leF]
    | fin r => constructor <;> norm_num [addF, divF, fle, leF]
  | pinf =>
    cases b with
    | nan => exact absurd rfl hb
    | ninf => simp [fle, leF] at hab
    | fin r => simp [fle, leF] at hab
    | pinf => constructor <;> norm_num [addF, divF, fle, leF]
  | fin p =>
    cases b with
    | nan => exact absurd rfl hb
    | ninf => simp [fle, leF] at hab
    | pinf => constructor <;> norm_num [addF, divF, fle, leF]
    | fin r =>
      have hpr : p ≤ r := by simpa [fle, leF] using hab
      constructor <;> norm_num [addF, divF, fle, leF] <;> linarith

/-- The spec-side median lies between any lower and any upper bound of
the data that are themselves data elements, provided the data is
NaN-free and does not contain both infinities. -/
theorem medianSpec_bounds (data : List F) (lo hi : F)
    (hne : data ≠ []) (hnn : F.nan ∉ data)
    (hni : ¬(F.ninf ∈ data ∧ F.pinf ∈ data))
    (hlob : ∀ x ∈ data, fle lo x) (hhib : ∀ x ∈ data, fle x hi) :
    fle lo (medianSpec data) ∧ fle (medianSpec data) hi := by
  simp only [medianSpec]
  set s := sortedAsc data with hsdef
  have hperm : s.Perm data := sortedAsc_perm data
  have hsort : List.Sorted fle s := sortedAsc_sorted data
  have hpos : 0 < s.length := by
    rw [hperm.length_eq]
    exact List.length_pos.2 hne
  by_cases hpar : s.length % 2 = 0
  · have h2 : 2 ≤ s.length := by omega
    have hmid1 : s.length / 2 - 1 < s.length := by omega
    have hmid : s.length / 2 < s.length := by omega
    have hA : s.getD (s.length / 2 - 1) F.nan ∈ data := by
      rw [List.getD_eq_getElem s F.nan hmid1]
      exact hperm.mem_iff.1 (List.getElem_mem hmid1)
    have hB : s.getD (s.length / 2) F.nan ∈ data := by
      rw [List.getD_eq_getElem s F.nan hmid]
      exact hperm.mem_iff.1 (List.getElem_mem hmid)
    have hab : fle (s.getD (s.length / 2 - 1) F.nan) (s.getD (s.length / 2) F.nan) := by
      rw [List.getD_eq_getElem s F.nan hmid1, List.getD_eq_getElem s F.nan hmid]
      have hf := hsort.rel_get_of_lt
        (show (⟨s.length / 2 - 1, hmid1⟩ : Fin s.length) < ⟨s.length / 2, hmid⟩ by
          simp only [Fin.mk_lt_mk]
          omega)
      simpa [List.get_eq_getElem] using hf
    have hnan1 : s.getD (s.length / 2 - 1) F.nan ≠ F.nan := fun h => hnn (h ▸ hA)
    have hnan2 : s.getD (s.length / 2) F.nan ≠ F.nan := fun h => hnn (h ▸ hB)
    have hnp : ¬(s.getD (s.length / 2 - 1) F.nan = F.ninf ∧
        s.getD (s.length / 2) F.nan = F.pinf) := by
      rintro ⟨hx, hy⟩
      exact hni ⟨hx ▸ hA, hy ▸ hB⟩
    have hbd := div2_bounds _ _ hnan1 hnan2 hab hnp
    rw [if_pos hpar]
    exact ⟨IsTrans.trans _ _ _ (hlob _ hA) hbd.1, IsTrans.trans _ _ _ hbd.2 (hhib _ hB)⟩
  · rw [if_neg hpar]
    have hmid : s.length / 2 < s.length := Nat.div_lt_self hpos one_lt_two
    have hm : s.getD (s.length / 2) F.nan ∈ data := by
      rw [List.getD_eq_getElem s F.nan hmid]
      exact hperm.mem_iff.1 (List.getElem_mem hmid)
    exact ⟨hlob _ hm, hhib _ hm⟩

/-- Square-root evaluation: `sqrt 4 = 2`. -/
theorem sqrtF_four : sqrtF (F.fin 4) = F.fin 2 := by
  have h1 : (4 : ℚ).num.toNat = 4 := by decide
  have h2 : (4 : ℚ).den = 1 := by decide
  have h3 : ¬((4 : ℚ) < 0) := by decide
  rw [sqrtF, if_neg h3, ratSqrt, h1, h2]
  norm_num [natSqrt, natSqrtAux]

/-- Square-root evaluation: `sqrt 0 = 0`. -/
theorem sqrtF_zero : sqrtF (F.fin 0) = F.fin 0 := by
  have h1 : (0 : ℚ).num.toNat = 0 := by decide
  have h2 : (0 : ℚ).den = 1 := by decide
  have h3 : ¬((0 : ℚ) < 0) := by decide
  rw [sqrtF, if_neg h3, ratSqrt, h1, h2]
  norm_num [natSqrt, natSqrtAux]

/-- C1: for every non-empty NaN-free sequence, `median` sorts the
sequence ascending (the result is read off the sorted permutation of the
input) and returns the element at index `⌊N/2⌋` for odd `N`, or the
arithmetic mean of the elements at indices `N/2 - 1` and `N/2` for even
`N`; in particular `median [1, 3, 2] = 2` and
`median [1, 2, 3, 4] = 5/2`. -/
theorem median_is_sorted_order_statistic (data : List F) (hne : data ≠ [])
    (hnn : F.nan ∉ data) :
    median data = Outcome.ok (medianSpec data)
  ∧ (sortedAsc data).Perm data
  ∧ List.Sorted fle (sortedAsc data)
  ∧ median [F.fin 1, F.fin 3, F.fin 2] = Outcome.ok (F.fin 2)
  ∧ median [F.fin 1, F.fin 2, F.fin 3, F.fin 4] = Outcome.ok (F.fin (5 / 2)) :=
  ⟨median_eq_medianSpec data hne hnn, sortedAsc_perm data, sortedAsc_sorted data,
    by decide, by
      have hs : sortF [F.fin 1, F.fin 2, F.fin 3, F.fin 4]
          = some [F.fin 1, F.fin 2, F.fin 3, F.fin 4] := by decide
      norm_num [median, hs, addF, divF]⟩

/-- Witness for C1 at the singleton input `[5.0]`. -/
theorem median_is_sorted_order_statistic_w :
    median [F.fin 5] = Outcome.ok (medianSpec [F.fin 5]) :=
  (median_is_sorted_order_statistic [F.fin 5] (by decide) (by decide)).1

/-- C3: `median` fails with the `EmptyInput` error (the `ValueError`
whose message is "median() arg is an empty sequence") exactly when the
input is empty — never an `Ok` default such as `0` or NaN on the empty
input — and on every non-empty NaN-free input it returns a value. -/
theorem median_emptyInput_error (data : List F) :
    (median data = Outcome.err emptyInputMsg ↔ data = [])
  ∧ (data ≠ [] → F.nan ∉ data → ∃ v, median data = Outcome.ok v) := by
  constructor
  · constructor
    · intro h
      by_contra hne
      have h0 : data.isEmpty = false := by
        cases data with
        | nil => exact absurd rfl hne
        | cons x xs => rfl
      rw [median, h0] at h
      simp only [Bool.false_eq_true, if_false] at h
      cases hsort : sortF data with
      | none => rw [hsort] at h; simp at h
      | some s =>
        rw [hsort] at h
        by_cases hpar : s.length % 2 = 0
        · simp [hpar] at h
        · simp [hpar] at h
    · intro h
      subst h
      rfl
  · intro hne hnn
    exact ⟨_, median_eq_medianSpec data hne hnn⟩

/-- Witness for C3 at the input `[2.0]`. -/
theorem median_emptyInput_error_w :
    ∃ v, median [F.fin 2] = Outcome.ok v :=
  (median_emptyInput_error [F.fin 2]).2 (by decide) (by decide)

/-- C5: on the input `[NaN, 1.0]` — which contains a NaN — `median`
neither returns a value nor signals an error: the comparator of its sort
panics when it compares the NaN. -/
theorem median_panics_on_nan :
    median [F.nan, F.fin 1] = Outcome.abort ∧ F.nan ∈ [F.nan, F.fin 1] := by
  decide

/-- C7: on non-empty NaN-free data, `median` is invariant under any
permutation of the input: it depends only on the input multiset, since
the algorithm fully sorts its own copy. -/
theorem median_perm_invariant (data data' : List F) (hp : data.Perm data')
    (hne : data ≠ []) (hnn : F.nan ∉ data) :
    median data = median data' := by
  have hne' : data' ≠ [] := by
    intro h
    subst h
    exact hne hp.eq_nil
  have hnn' : F.nan ∉ data' := fun h => hnn (hp.mem_iff.2 h)
  rw [median_eq_medianSpec data hne hnn, median_eq_medianSpec data' hne' hnn']
  have hs : sortedAsc data = sortedAsc data' := sortedAsc_perm_congr data data' hp
  simp only [medianSpec, hs]

/-- Witness for C7 at the pair of inputs `[1.0, 2.0]` and `[2.0, 1.0]`. -/
theorem median_perm_invariant_w :
    median [F.fin 1, F.fin 2] = median [F.fin 2, F.fin 1] :=
  median_perm_invariant [F.fin 1, F.fin 2] [F.fin 2, F.fin 1]
    (by decide) (by decide) (by decide)

/-- Counterexample to C8 as stated: the input `[-inf, +inf]` is
non-empty, NaN-free and finite, its minimum is `-inf` and its maximum is
`+inf`, but `median` returns NaN (the mean `(-inf + +inf) / 2`), which
does not lie below the maximum — NaN is not `≤` anything, so the result
is outside the closed interval `[min, max]`. -/
theorem median_within_minmax_cex :
    median [F.ninf, F.pinf] = Outcome.ok F.nan
  ∧ ¬(fle F.ninf F.nan ∧ fle F.nan F.pinf) := by
  decide

/-- C8 (amended: the NaN-free input must also not contain both `-inf`
and `+inf`, which the counterexample forces): the value returned by
`median` lies between every lower bound and every upper bound of the
data — in particular within `[min(S), max(S)]`. -/
theorem median_within_minmax (data : List F) (lo hi : F)
    (hne : data ≠ []) (hnn : F.nan ∉ data)
    (hni : ¬(F.ninf ∈ data ∧ F.pinf ∈ data))
    (hlob : ∀ x ∈ data, fle lo x) (hhib : ∀ x ∈ data, fle x hi) :
    ∃ m, median data = Outcome.ok m ∧ fle lo m ∧ fle m hi :=
  ⟨medianSpec data, median_eq_medianSpec data hne hnn,
    medianSpec_bounds data lo hi hne hnn hni hlob hhib⟩

/-- Witness for C8 at the input `[1.0, 3.0, 2.0]` with bounds 1 and 3. -/
theorem median_within_minmax_w :
    ∃ m, median [F.fin 1, F.fin 3, F.fin 2] = Outcome.ok m
      ∧ fle (F.fin 1) m ∧ fle m (F.fin 3) :=
  median_within_minmax [F.fin 1, F.fin 3, F.fin 2] (F.fin 1) (F.fin 3)
    (by decide) (by decide) (by decide) (by decide) (by decide)

/-- C2: on every sequence of at least two finite values, `stdev` returns
the population standard deviation of the two-pass algorithm — the square
root of `(sum of (mean - element)^2) / N` with `mean = (sum) / N`,
dividing by `N` and not `N - 1`; in particular
`stdev [2, 4, 4, 4, 5, 5, 7, 9] = 2`. -/
theorem stdev_two_pass_population (qs : List ℚ) (h2 : 2 ≤ qs.length) :
    stdev (qs.map F.fin) = Outcome.ok (sqrtF (F.fin (popVarianceSpec qs)))
  ∧ stdev [F.fin 2, F.fin 4, F.fin 4, F.fin 4, F.fin 5, F.fin 5, F.fin 7, F.fin 9]
      = Outcome.ok (F.fin 2) :=
  ⟨stdev_map_fin qs h2, by
    norm_num [stdev, stdevFinish, varianceOf, sumF, addF, subF, mulF, divF]
    exact sqrtF_four⟩

/-- Witness for C2 at the input `[1.0, 3.0]`. -/
theorem stdev_two_pass_population_w :
    stdev ([1, 3].map F.fin) = Outcome.ok (sqrtF (F.fin (popVarianceSpec [1, 3]))) :=
  (stdev_two_pass_population [1, 3] (by decide)).1

/-- C4: `stdev` fails with the `InsufficientData` error (the
`ValueError` whose message is "stdev() requires at least two data
points") exactly when the input has fewer than two elements, and on
every input of length at least two it returns a value. -/
theorem stdev_insufficientData_error (data : List F) :
    (stdev data = Outcome.err insufficientDataMsg ↔ data.length < 2)
  ∧ (2 ≤ data.length → ∃ v, stdev data = Outcome.ok v) := by
  constructor
  · constructor
    · intro h
      by_contra hlt
      rw [stdev, if_neg hlt] at h
      simp at h
    · intro h
      rw [stdev, if_pos h]
  · intro h2
    rw [stdev, if_neg (by omega)]
    exact ⟨_, rfl⟩

/-- Witness for C4 at the input `[1.0, 2.0]`. -/
theorem stdev_insufficientData_error_w :
    ∃ v, stdev [F.fin 1, F.fin 2] = Outcome.ok v :=
  (stdev_insufficientData_error [F.fin 1, F.fin 2]).2 (by decide)

/-- Counterexample to C6 as stated: the square-root step of `stdev`
applies `sqrt` directly to the computed variance — feeding it the tiny
negative variance `-1/1000000` produces NaN, not the `sqrt 0` that the
claimed clamping would produce.  (No clamp exists in the source; the
claim's protection against NaN from a tiny negative variance is absent,
and is also never needed — see the amended theorem.) -/
theorem stdev_clamp_cex :
    stdevFinish (F.fin (-(1 / 1000000))) = F.nan
  ∧ stdevFinish (F.fin (-(1 / 1000000))) ≠ sqrtF (F.fin 0) := by
  have h : stdevFinish (F.fin (-(1 / 1000000))) = F.nan := by
    norm_num [stdevFinish, sqrtF]
  refine ⟨h, ?_⟩
  rw [h, sqrtF_zero]
  simp

/-- C6 (amended: `stdev` does not clamp — it applies the square root
directly to the variance — but the two-pass variance is never a
negative finite value, each squared deviation being nonnegative, so the
square root of a negative number can never arise). -/
theorem stdev_sqrt_arg_never_negative (data : List F) (q : ℚ)
    (h : varianceOf data = F.fin q) :
    0 ≤ q ∧ (2 ≤ data.length → stdev data = Outcome.ok (sqrtF (varianceOf data))) := by
  refine ⟨varianceOf_notNegFin data q h, fun h2 => ?_⟩
  rw [stdev, if_neg (by omega), stdevFinish]

/-- Witness for C6 (amended) at the input `[1.0, 3.0]`, whose computed
variance is the finite value 1. -/
theorem stdev_sqrt_arg_never_negative_w :
    varianceOf [F.fin 1, F.fin 3] = F.fin 1
  ∧ (0 ≤ (1 : ℚ)
  ∧ (2 ≤ ([F.fin 1, F.fin 3] : List F).length →
      stdev [F.fin 1, F.fin 3] = Outcome.ok (sqrtF (varianceOf [F.fin 1, F.fin 3])))) := by
  have h : varianceOf [F.fin 1, F.fin 3] = F.fin 1 := by
    norm_num [varianceOf, sumF, addF, subF, mulF, divF]
  exact ⟨h, stdev_sqrt_arg_never_negative [F.fin 1, F.fin 3] 1 h⟩

/-- Counterexample to C9 as stated: `[+inf, +inf]` is a constant
sequence of length 2 (every element equals the float `+inf`), but
`stdev` returns NaN (`mean = +inf` and `+inf - +inf = NaN`), not 0. -/
theorem stdev_const_zero_cex :
    stdev [F.pinf, F.pinf] = Outcome.ok F.nan ∧ F.nan ≠ F.fin 0 := by
  decide

/-- C9 (amended: the constant value must be a finite float, which the
counterexample with a constant infinite sequence forces): on every
constant sequence of a finite value `c` with length at least two,
`stdev` returns exactly 0. -/
theorem stdev_const_zero (c : ℚ) (data : List F) (h2 : 2 ≤ data.length)
    (hc : ∀ x ∈ data, x = F.fin c) :
    stdev data = Outcome.ok (F.fin 0) := by
  have hrep : data = (List.replicate data.length c).map F.fin := by
    rw [List.map_replicate]
    exact List.eq_replicate.2 ⟨rfl, hc⟩
  have hlen2 : 2 ≤ (List.replicate data.length c).length := by
    simpa using h2
  have hvar : popVarianceSpec (List.replicate data.length c) = 0 := by
    have hmean : ((data.length : ℚ)) * c / ((data.length : ℚ)) = c :=
      mul_div_cancel_left₀ c (Nat.cast_ne_zero.mpr (by omega))
    norm_num [popVarianceSpec, List.map_replicate, List.sum_replicate, nsmul_eq_mul,
      hmean]
  calc stdev data
      = stdev ((List.replicate data.length c).map F.fin) := by rw [← hrep]
    _ = Outcome.ok (sqrtF (F.fin (popVarianceSpec (List.replicate data.length c)))) :=
        stdev_map_fin _ hlen2
    _ = Outcome.ok (F.fin 0) := by rw [hvar, sqrtF_zero]

/-- Witness for C9 (amended) at the input `[3.0, 3.0, 3.0]`. -/
theorem stdev_const_zero_w :
    stdev [F.fin 3, F.fin 3, F.fin 3] = Outcome.ok (F.fin 0) :=
  stdev_const_zero 3 [F.fin 3, F.fin 3, F.fin 3] (by decide) (by decide)

/-- C10: unlike `median`, `stdev` never panics — on any input at all —
and on every input of length at least two it returns a value, whatever
the elements are (NaN and infinities included). -/
theorem stdev_total_on_all_floats (data : List F) :
    stdev data ≠ Outcome.abort
  ∧ (2 ≤ data.length → ∃ v, stdev data = Outcome.ok v) := by
  constructor
  · rw [stdev]
    split
    · simp
    · simp
  · intro h2
    rw [stdev, if_neg (by omega)]
    exact ⟨_, rfl⟩

/-- Witness for C10 at the input `[NaN, +inf]`. -/
theorem stdev_total_on_all_floats_w :
    ∃ v, stdev [F.nan, F.pinf] = Outcome.ok v :=
  (stdev_total_on_all_floats [F.nan, F.pinf]).2 (by decide)

end PyFunc
